import Mathlib

/-!
Shallow embedding of the rustygrad computation-graph engine (src/node.rs).

The engine keeps an arena `Vec<Node>` of scalar nodes and a satellite edge map
`HashMap<usize, [Option<usize>; 2]>` from a node's id to its (up to two)
operand ids.  Operator primitives (`add`, `mul`, `pow`, `relu`) read the
operand values, append a freshly tagged node, and record the edge.  The
`backwards` function runs a breadth-first traversal with a visited set,
starting from the last node of the arena, pushing chain-rule contributions
onto operand gradients.

Modelling choices:
* `f64` scalars are modelled as `ℚ`; the partial `f64::powf` has no exact
  rational counterpart, so it is passed around as an abstract parameter
  `powf : ℚ → ℚ → ℚ` and never interpreted.
* The source draws ids from a global atomic counter and then indexes the
  arena vector by id (`nodes[node_id]`), which is meaningful for a single
  arena grown from a fresh counter; accordingly a new node's id is the
  current arena length.
* The `HashMap` is modelled as an association list with first-match lookup;
  the engine only ever inserts fresh keys, for which the two agree.
* Rust panics (`unwrap` on a missing operand, the `assert!(y > x)` in
  `get_child_nodes`, out-of-bounds indexing, `unwrap` on an empty arena)
  are modelled as `Except` errors.
-/

namespace Rustygrad

/-- Operator tag of a node, mirroring `enum Operator` in src/node.rs. -/
inductive Operator where
  | Plus
  | Mul
  | Pow
  | Relu
deriving DecidableEq, Repr

/-- Computation-graph vertex, mirroring `struct Node` in src/node.rs.
`f64` fields are modelled as `ℚ`. -/
structure Node where
  id : Nat
  value : ℚ
  gradient : ℚ
  operator : Option Operator
deriving DecidableEq, Repr

/-- Edge record: the ordered pair of optional operand ids stored for a node. -/
abbrev EdgeRec := Option Nat × Option Nat

/-- The edge map `pub type Map = HashMap<usize, [Option<usize>; 2]>`,
modelled as an association list (the engine only inserts fresh keys). -/
abbrev EdgeMap := List (Nat × EdgeRec)

/-- First-match lookup in the edge map, modelling `HashMap::get`. -/
def findRec : EdgeMap → Nat → Option EdgeRec
  | [], _ => none
  | (k, r) :: t, key => if k = key then some r else findRec t key

/-- Bounds-checked arena indexing `nodes.get(i)` / `nodes[i]`, written as a
structural recursion so that concrete traces reduce by computation. -/
def getNode : List Node → Nat → Option Node
  | [], _ => none
  | n :: _, 0 => some n
  | _ :: ns, Nat.succ i => getNode ns i

/-- Panic conditions of the source, surfaced as errors:
`operandNotFound` models the `unwrap` on a missing operand in a primitive,
`emptyArena` the `unwrap` on `nodes.last()` in `backwards`,
`missingNode` an out-of-bounds arena access during traversal, and
`assertOrder` the `assert!(y > x)` in `get_child_nodes`. -/
inductive Err where
  | operandNotFound
  | emptyArena
  | missingNode
  | assertOrder
deriving DecidableEq, Repr

/-- Mirrors `new_node`: append a leaf node with the given value, zero
gradient and no operator; return the new arena and the new id. -/
def new_node (nodes : List Node) (value : ℚ) : List Node × Nat :=
  (nodes ++ [{ id := nodes.length, value := value, gradient := 0, operator := none }],
   nodes.length)

/-- Mirrors `add`: read both operand values (panic when either id is absent),
append a `Plus` node with the sum, record the edge, return new id and value. -/
def add (map : EdgeMap) (nodes : List Node) (i j : Nat) :
    Except Err (EdgeMap × List Node × Nat × ℚ) :=
  match getNode nodes i, getNode nodes j with
  | some a, some b =>
      let value := a.value + b.value
      let nodeId := nodes.length
      .ok ((nodeId, (some i, some j)) :: map,
           nodes ++ [{ id := nodeId, value := value, gradient := 0, operator := some .Plus }],
           nodeId, value)
  | _, _ => .error .operandNotFound

/-- Mirrors `mul`: like `add` with the product and a `Mul` tag. -/
def mul (map : EdgeMap) (nodes : List Node) (i j : Nat) :
    Except Err (EdgeMap × List Node × Nat × ℚ) :=
  match getNode nodes i, getNode nodes j with
  | some a, some b =>
      let value := a.value * b.value
      let nodeId := nodes.length
      .ok ((nodeId, (some i, some j)) :: map,
           nodes ++ [{ id := nodeId, value := value, gradient := 0, operator := some .Mul }],
           nodeId, value)
  | _, _ => .error .operandNotFound

/-- Mirrors `pow`: value is `a.value.powf(b.value)`, tag `Pow`. -/
def pow (powf : ℚ → ℚ → ℚ) (map : EdgeMap) (nodes : List Node) (i j : Nat) :
    Except Err (EdgeMap × List Node × Nat × ℚ) :=
  match getNode nodes i, getNode nodes j with
  | some a, some b =>
      let value := powf a.value b.value
      let nodeId := nodes.length
      .ok ((nodeId, (some i, some j)) :: map,
           nodes ++ [{ id := nodeId, value := value, gradient := 0, operator := some .Pow }],
           nodeId, value)
  | _, _ => .error .operandNotFound

/-- Mirrors `relu`: value is `a.value` when positive else `0`, one-operand
edge record `[Some(i), None]`, tag `Relu`. -/
def relu (map : EdgeMap) (nodes : List Node) (i : Nat) :
    Except Err (EdgeMap × List Node × Nat × ℚ) :=
  match getNode nodes i with
  | some a =>
      let value := if a.value > 0 then a.value else 0
      let nodeId := nodes.length
      .ok ((nodeId, (some i, none)) :: map,
           nodes ++ [{ id := nodeId, value := value, gradient := 0, operator := some .Relu }],
           nodeId, value)
  | none => .error .operandNotFound

/-- Index-based in-place gradient increment, modelling
`node.gradient += g` on the arena entry at index `i`. -/
def addGradAt : List Node → Nat → ℚ → List Node
  | [], _, _ => []
  | n :: ns, 0, g => { n with gradient := n.gradient + g } :: ns
  | n :: ns, Nat.succ i, g => n :: addGradAt ns i g

/-- Index-based gradient overwrite, modelling `nodes[i].gradient = g`
(how a caller seeds the backward pass). -/
def setGradAt : List Node → Nat → ℚ → List Node
  | [], _, _ => []
  | n :: ns, 0, g => { n with gradient := g } :: ns
  | n :: ns, Nat.succ i, g => n :: setGradAt ns i g

/-- Chain rule of the two-operand arm of `backwards`: `g` is the popped
node's gradient, `selfV`/`otherV` the operand values at indices `x`/`y`. -/
def applyBinary (powf : ℚ → ℚ → ℚ) (op : Option Operator) (g selfV otherV : ℚ)
    (nodes : List Node) (x y : Nat) : List Node :=
  match op with
  | some .Plus => addGradAt (addGradAt nodes x g) y g
  | some .Mul => addGradAt (addGradAt nodes x (otherV * g)) y (selfV * g)
  | some .Pow => addGradAt nodes x (otherV * powf selfV (1 - otherV) * g)
  | _ => nodes

/-- Chain rule of the one-operand arm of `backwards`: `outV` is the popped
node's own value (the source tests `node_clone.value > 0.0`). -/
def applyUnary (op : Option Operator) (outV g : ℚ) (nodes : List Node) (x : Nat) :
    List Node :=
  match op with
  | some .Relu => if outV > 0 then addGradAt nodes x g else nodes
  | _ => nodes

/-- Number of arena nodes whose id has not been visited yet; the first
component of the termination measure of the traversal loop. -/
def measure1 (visited : List Nat) (nodes : List Node) : Nat :=
  ((nodes.map Node.id).filter (fun x => decide (x ∉ visited))).length

theorem addGradAt_map_id (ns : List Node) (i : Nat) (g : ℚ) :
    (addGradAt ns i g).map Node.id = ns.map Node.id := by
  induction ns generalizing i with
  | nil => rfl
  | cons n t ih =>
      cases i with
      | zero => simp [addGradAt]
      | succ k => simp [addGradAt, ih]

theorem applyBinary_map_id (powf : ℚ → ℚ → ℚ) (op : Option Operator)
    (g selfV otherV : ℚ) (nodes : List Node) (x y : Nat) :
    (applyBinary powf op g selfV otherV nodes x y).map Node.id = nodes.map Node.id := by
  cases op with
  | none => rfl
  | some o => cases o <;> simp [applyBinary, addGradAt_map_id]

theorem applyUnary_map_id (op : Option Operator) (outV g : ℚ)
    (nodes : List Node) (x : Nat) :
    (applyUnary op outV g nodes x).map Node.id = nodes.map Node.id := by
  cases op with
  | none => rfl
  | some o =>
      cases o <;> simp [applyUnary, addGradAt_map_id]
      split <;> simp [addGradAt_map_id]

theorem filter_notMem_cons_length_lt (l v : List Nat) (a : Nat)
    (ha : a ∈ l) (hav : a ∉ v) :
    (l.filter (fun x => decide (x ∉ a :: v))).length <
      (l.filter (fun x => decide (x ∉ v))).length := by
  induction l with
  | nil => cases ha
  | cons b t ih =>
      by_cases hba : b = a
      · subst hba
        have hmono : (t.filter (fun x => decide (x ∉ b :: v))).length ≤
            (t.filter (fun x => decide (x ∉ v))).length := by
          rw [← List.countP_eq_length_filter, ← List.countP_eq_length_filter]
          apply List.countP_mono_left
          intro x _ hx
          simp only [decide_eq_true_eq] at hx ⊢
          intro hxv
          exact hx (List.mem_cons_of_mem _ hxv)
        simp only [List.filter_cons]
        have h1 : (decide (b ∉ b :: v)) = false := by simp
        have h2 : (decide (b ∉ v)) = true := by simpa using hav
        rw [h1, h2]
        simpa using Nat.lt_succ_of_le hmono
      · have ha' : a ∈ t := by
          cases ha with
          | head => exact absurd rfl hba
          | tail _ h => exact h
        have hsame : (decide (b ∉ a :: v)) = (decide (b ∉ v)) := by
          by_cases hbv : b ∈ v
          · simp [hbv]
          · simp [hbv, hba]
        simp only [List.filter_cons, hsame]
        cases hd : decide (b ∉ v) with
        | false => simpa using ih ha'
        | true => simpa using Nat.succ_lt_succ (ih ha')

theorem mem_of_getNode (ns : List Node) (k : Nat) (n : Node)
    (h : getNode ns k = some n) : n ∈ ns := by
  induction ns generalizing k with
  | nil => cases h
  | cons m t ih =>
      cases k with
      | zero =>
          rw [getNode] at h
          cases h
          exact List.mem_cons_self _ _
      | succ k' => exact List.mem_cons_of_mem _ (ih k' h)

theorem measure1_cons_lt (visited : List Nat) (ns ns' : List Node) (k : Nat)
    (n : Node) (h : getNode ns k = some n) (hv : n.id ∉ visited)
    (hids : ns'.map Node.id = ns.map Node.id) :
    measure1 (n.id :: visited) ns' < measure1 visited ns := by
  unfold measure1
  rw [hids]
  exact filter_notMem_cons_length_lt _ _ _
    (List.mem_map_of_mem Node.id (mem_of_getNode ns k n h)) hv

/-- Mirrors the loop body of `backwards`: pop the front id, clone the node at
that index (panicking when out of bounds), skip it when already visited, else
mark it visited, look up its edge record, fetch the operand nodes as in
`get_child_nodes` (assertion `y > x`, then bounds-checked access), enqueue the
operand ids, and apply the operator's chain rule. Returns the final arena and
the visited set. -/
def backLoop (powf : ℚ → ℚ → ℚ) (map : EdgeMap) (visited deque : List Nat)
    (nodes : List Node) : Except Err (List Node × List Nat) :=
  match deque with
  | [] => .ok (nodes, visited)
  | nodeId :: rest =>
    match h : getNode nodes nodeId with
    | none => .error .missingNode
    | some nodeClone =>
      if hv : nodeClone.id ∈ visited then
        backLoop powf map visited rest nodes
      else
        match findRec map nodeClone.id with
        | none => backLoop powf map (nodeClone.id :: visited) rest nodes
        | some (none, _) => backLoop powf map (nodeClone.id :: visited) rest nodes
        | some (some x, none) =>
          match getNode nodes x with
          | none => .error .missingNode
          | some selfN =>
            backLoop powf map (nodeClone.id :: visited) (rest ++ [selfN.id])
              (applyUnary nodeClone.operator nodeClone.value nodeClone.gradient nodes x)
        | some (some x, some y) =>
          if x < y then
            match getNode nodes y, getNode nodes x with
            | some otherN, some selfN =>
              backLoop powf map (nodeClone.id :: visited)
                (rest ++ [selfN.id, otherN.id])
                (applyBinary powf nodeClone.operator nodeClone.gradient
                  selfN.value otherN.value nodes x y)
            | _, _ => .error .missingNode
          else .error .assertOrder
termination_by (measure1 visited nodes, deque.length)
decreasing_by
  · exact Prod.Lex.right _ (Nat.lt_succ_self _)
  · exact Prod.Lex.left _ _ (measure1_cons_lt _ _ _ _ _ h hv rfl)
  · exact Prod.Lex.left _ _
      (measure1_cons_lt _ _ _ _ _ h hv (applyUnary_map_id _ _ _ _ _))
  · exact Prod.Lex.left _ _
      (measure1_cons_lt _ _ _ _ _ h hv (applyBinary_map_id _ _ _ _ _ _ _ _))

/-- Mirrors `backwards`: seed the queue with the id of the last arena node
(panicking when the arena is empty) and run the traversal loop. -/
def backwards (powf : ℚ → ℚ → ℚ) (map : EdgeMap) (nodes : List Node) :
    Except Err (List Node × List Nat) :=
  match nodes.getLast? with
  | none => .error .emptyArena
  | some last => backLoop powf map [] [last.id] nodes

/-- Gradient stored at arena index `i`. -/
def gradAt (ns : List Node) (i : Nat) : Option ℚ :=
  (getNode ns i).map Node.gradient

/-- Value stored at arena index `i`. -/
def valueAt (ns : List Node) (i : Nat) : Option ℚ :=
  (getNode ns i).map Node.value

/-- Gradient at index `i` of the arena a successful `backwards` run returns. -/
def gradsOf (r : Except Err (List Node × List Nat)) (i : Nat) : Option ℚ :=
  match r with
  | .ok (ns, _) => gradAt ns i
  | .error _ => none

/-- Value at index `i` of the arena a successful `backwards` run returns. -/
def valsOf (r : Except Err (List Node × List Nat)) (i : Nat) : Option ℚ :=
  match r with
  | .ok (ns, _) => valueAt ns i
  | .error _ => none

/-- Visited set of a successful `backwards` run (most recent first). -/
def visOf (r : Except Err (List Node × List Nat)) : Option (List Nat) :=
  match r with
  | .ok (_, vis) => some vis
  | .error _ => none

/-- Membership of `k` among the operand ids recorded for node `p` in the
edge map: the traversal pushes gradient contributions only onto such `k`. -/
def operandOf (map : EdgeMap) (p k : Nat) : Prop :=
  ∃ r, findRec map p = some r ∧ (r.1 = some k ∨ r.2 = some k)

/-- Reachability from `root` through recorded operand edges. -/
def reaches (map : EdgeMap) (root k : Nat) : Prop :=
  Relation.ReflTransGen (operandOf map) root k

/-- Two leaves `a`, `b` and `c = add(a, b)`, with `c`'s gradient seeded
to `g` and all other gradients `0`. -/
def mkAdd2 (va vb g : ℚ) : Except Err (EdgeMap × List Node) := do
  let (ns1, a) := new_node [] va
  let (ns2, b) := new_node ns1 vb
  let (m, ns3, c, _) ← add [] ns2 a b
  .ok (m, setGradAt ns3 c g)

/-- Two leaves and `c = mul(a, b)`, seeded with `g` at `c`. -/
def mkMul2 (va vb g : ℚ) : Except Err (EdgeMap × List Node) := do
  let (ns1, a) := new_node [] va
  let (ns2, b) := new_node ns1 vb
  let (m, ns3, c, _) ← mul [] ns2 a b
  .ok (m, setGradAt ns3 c g)

/-- Two leaves and `c = pow(a, b)`, seeded with `g` at `c`. -/
def mkPow2 (powf : ℚ → ℚ → ℚ) (va vb g : ℚ) : Except Err (EdgeMap × List Node) := do
  let (ns1, a) := new_node [] va
  let (ns2, b) := new_node ns1 vb
  let (m, ns3, c, _) ← pow powf [] ns2 a b
  .ok (m, setGradAt ns3 c g)

/-- One leaf and `r = relu(x)`, seeded with `g` at `r`. -/
def mkRelu1 (xv g : ℚ) : Except Err (EdgeMap × List Node) := do
  let (ns1, x) := new_node [] xv
  let (m, ns2, r, _) ← relu [] ns1 x
  .ok (m, setGradAt ns2 r g)

/-- Diamond graph in creation order `a`, `b`, `c = add(a,b)`, `d = mul(a,b)`,
`e = add(c,d)`, with `e`'s gradient seeded to `1`. -/
def mkDiamond (va vb : ℚ) : Except Err (EdgeMap × List Node) := do
  let (ns1, a) := new_node [] va
  let (ns2, b) := new_node ns1 vb
  let (m1, ns3, c, _) ← add [] ns2 a b
  let (m2, ns4, d, _) ← mul m1 ns3 a b
  let (m3, ns5, e, _) ← add m2 ns4 c d
  .ok (m3, setGradAt ns5 e 1)

/-- Reconvergent graph with unequal path lengths: `x = leaf 1`,
`a = relu(x)`, `b = leaf 5`, `c = add(a, b)`, `e = add(a, c)`, with `e`'s
gradient seeded to `1`.  Node `a` feeds `e` both directly and through `c`. -/
def mkReconv : Except Err (EdgeMap × List Node) := do
  let (ns1, x) := new_node [] 1
  let (m1, ns2, a, _) ← relu [] ns1 x
  let (ns3, b) := new_node ns2 5
  let (m2, ns4, c, _) ← add m1 ns3 a b
  let (m3, ns5, e, _) ← add m2 ns4 a c
  .ok (m3, setGradAt ns5 e 1)

/-- Graph whose seeded node is unreachable from the last node: `a = leaf 2`,
`b = leaf 3`, `c = add(a, b)`, then a fresh leaf `d = leaf 7` appended last;
`c`'s gradient is seeded to `1`. -/
def mkUnreach : Except Err (EdgeMap × List Node) := do
  let (ns1, a) := new_node [] 2
  let (ns2, b) := new_node ns1 3
  let (m, ns3, c, _) ← add [] ns2 a b
  let (ns4, _) := new_node ns3 7
  .ok (m, setGradAt ns4 c 1)

/-- Run `backwards` on a seeded graph description. -/
def runGraph (powf : ℚ → ℚ → ℚ) (g : Except Err (EdgeMap × List Node)) :
    Except Err (List Node × List Nat) := do
  let (m, ns) ← g
  backwards powf m ns

/-- Run `backwards` twice in a row on a seeded graph description, without
re-zeroing any gradient in between. -/
def runGraphTwice (powf : ℚ → ℚ → ℚ) (g : Except Err (EdgeMap × List Node)) :
    Except Err (List Node × List Nat) := do
  let (m, ns) ← g
  let (ns1, _) ← backwards powf m ns
  backwards powf m ns1

theorem addGradAt_get?_ne (ns : List Node) (i : Nat) (g : ℚ) (k : Nat) (hk : k ≠ i) :
    getNode (addGradAt ns i g) k = getNode ns k := by
  induction ns generalizing i k with
  | nil => rfl
  | cons n t ih =>
      cases i with
      | zero =>
          cases k with
          | zero => exact absurd rfl hk
          | succ m => simp [addGradAt, getNode]
      | succ i' =>
          cases k with
          | zero => simp [addGradAt, getNode]
          | succ m => simpa [addGradAt, getNode] using ih i' m (by omega)

theorem addGradAt_get?_id (ns : List Node) (i : Nat) (g : ℚ) (k : Nat) :
    (getNode (addGradAt ns i g) k).map Node.id = (getNode ns k).map Node.id := by
  induction ns generalizing i k with
  | nil => rfl
  | cons n t ih =>
      cases i with
      | zero => cases k <;> simp [addGradAt, getNode]
      | succ i' =>
          cases k with
          | zero => simp [addGradAt, getNode]
          | succ m => simpa [addGradAt, getNode] using ih i' m

theorem addGradAt_get?_value (ns : List Node) (i : Nat) (g : ℚ) (k : Nat) :
    (getNode (addGradAt ns i g) k).map Node.value = (getNode ns k).map Node.value := by
  induction ns generalizing i k with
  | nil => rfl
  | cons n t ih =>
      cases i with
      | zero => cases k <;> simp [addGradAt, getNode]
      | succ i' =>
          cases k with
          | zero => simp [addGradAt, getNode]
          | succ m => simpa [addGradAt, getNode] using ih i' m

theorem addGradAt_get?_operator (ns : List Node) (i : Nat) (g : ℚ) (k : Nat) :
    (getNode (addGradAt ns i g) k).map Node.operator = (getNode ns k).map Node.operator := by
  induction ns generalizing i k with
  | nil => rfl
  | cons n t ih =>
      cases i with
      | zero => cases k <;> simp [addGradAt, getNode]
      | succ i' =>
          cases k with
          | zero => simp [addGradAt, getNode]
          | succ m => simpa [addGradAt, getNode] using ih i' m

theorem addGradAt_length (ns : List Node) (i : Nat) (g : ℚ) :
    (addGradAt ns i g).length = ns.length := by
  induction ns generalizing i with
  | nil => rfl
  | cons n t ih => cases i <;> simp [addGradAt, ih]

theorem applyBinary_get?_ne (powf : ℚ → ℚ → ℚ) (op : Option Operator) (g sv ov : ℚ) (ns : List Node) (x y k : Nat)
    (hx : k ≠ x) (hy : k ≠ y) :
    getNode (applyBinary powf op g sv ov ns x y) k = getNode ns k := by
  cases op with
  | none => rfl
  | some o => cases o <;> simp [applyBinary, addGradAt_get?_ne, hx, hy]

theorem applyUnary_get?_ne (op : Option Operator) (outV g : ℚ) (ns : List Node) (x k : Nat) (hx : k ≠ x) :
    getNode (applyUnary op outV g ns x) k = getNode ns k := by
  cases op with
  | none => rfl
  | some o =>
      cases o <;> simp [applyUnary]
      split <;> simp [addGradAt_get?_ne, hx]

theorem applyBinary_get?_id (powf : ℚ → ℚ → ℚ) (op : Option Operator) (g sv ov : ℚ) (ns : List Node) (x y k : Nat) :
    (getNode (applyBinary powf op g sv ov ns x y) k).map Node.id =
      (getNode ns k).map Node.id := by
  cases op with
  | none => rfl
  | some o => cases o <;> simp [applyBinary, addGradAt_get?_id]

theorem applyUnary_get?_id (op : Option Operator) (outV g : ℚ) (ns : List Node) (x k : Nat) :
    (getNode (applyUnary op outV g ns x) k).map Node.id = (getNode ns k).map Node.id := by
  cases op with
  | none => rfl
  | some o =>
      cases o <;> simp [applyUnary]
      split <;> simp [addGradAt_get?_id]

theorem applyBinary_get?_value (powf : ℚ → ℚ → ℚ) (op : Option Operator) (g sv ov : ℚ) (ns : List Node) (x y k : Nat) :
    (getNode (applyBinary powf op g sv ov ns x y) k).map Node.value =
      (getNode ns k).map Node.value := by
  cases op with
  | none => rfl
  | some o => cases o <;> simp [applyBinary, addGradAt_get?_value]

theorem applyUnary_get?_value (op : Option Operator) (outV g : ℚ) (ns : List Node) (x k : Nat) :
    (getNode (applyUnary op outV g ns x) k).map Node.value = (getNode ns k).map Node.value := by
  cases op with
  | none => rfl
  | some o =>
      cases o <;> simp [applyUnary]
      split <;> simp [addGradAt_get?_value]

theorem applyBinary_get?_operator (powf : ℚ → ℚ → ℚ) (op : Option Operator) (g sv ov : ℚ) (ns : List Node) (x y k : Nat) :
    (getNode (applyBinary powf op g sv ov ns x y) k).map Node.operator =
      (getNode ns k).map Node.operator := by
  cases op with
  | none => rfl
  | some o => cases o <;> simp [applyBinary, addGradAt_get?_operator]

theorem applyUnary_get?_operator (op : Option Operator) (outV g : ℚ) (ns : List Node) (x k : Nat) :
    (getNode (applyUnary op outV g ns x) k).map Node.operator =
      (getNode ns k).map Node.operator := by
  cases op with
  | none => rfl
  | some o =>
      cases o <;> simp [applyUnary]
      split <;> simp [addGradAt_get?_operator]

theorem applyBinary_length (powf : ℚ → ℚ → ℚ) (op : Option Operator) (g sv ov : ℚ) (ns : List Node) (x y : Nat) :
    (applyBinary powf op g sv ov ns x y).length = ns.length := by
  cases op with
  | none => rfl
  | some o => cases o <;> simp [applyBinary, addGradAt_length]

theorem applyUnary_length (op : Option Operator) (outV g : ℚ) (ns : List Node) (x : Nat) :
    (applyUnary op outV g ns x).length = ns.length := by
  cases op with
  | none => rfl
  | some o =>
      cases o <;> simp [applyUnary]
      split <;> simp [addGradAt_length]

theorem backLoop_nil (powf : ℚ → ℚ → ℚ) (map : EdgeMap) (visited : List Nat)
    (nodes : List Node) : backLoop powf map visited [] nodes = .ok (nodes, visited) := by
  rw [backLoop.eq_def]

theorem backLoop_cons_missing (powf : ℚ → ℚ → ℚ) (map : EdgeMap)
    (visited rest : List Nat) (nodes : List Node) (nodeId : Nat)
    (h : getNode nodes nodeId = none) :
    backLoop powf map visited (nodeId :: rest) nodes = .error .missingNode := by
  rw [backLoop.eq_def]
  dsimp only
  split
  next heq => rfl
  next c heq => simp [h] at heq

theorem backLoop_cons_visited (powf : ℚ → ℚ → ℚ) (map : EdgeMap)
    (visited rest : List Nat) (nodes : List Node) (nodeId : Nat) (c : Node)
    (h : getNode nodes nodeId = some c) (hv : c.id ∈ visited) :
    backLoop powf map visited (nodeId :: rest) nodes =
      backLoop powf map visited rest nodes := by
  rw [backLoop.eq_def]
  dsimp only
  split
  next heq => simp [h] at heq
  next c' heq =>
    rw [h] at heq
    cases heq
    rw [dif_pos hv]

theorem backLoop_cons_skip (powf : ℚ → ℚ → ℚ) (map : EdgeMap)
    (visited rest : List Nat) (nodes : List Node) (nodeId : Nat) (c : Node)
    (h : getNode nodes nodeId = some c) (hv : c.id ∉ visited)
    (hrec : findRec map c.id = none ∨ ∃ snd, findRec map c.id = some (none, snd)) :
    backLoop powf map visited (nodeId :: rest) nodes =
      backLoop powf map (c.id :: visited) rest nodes := by
  rw [backLoop.eq_def]
  dsimp only
  split
  next heq => simp [h] at heq
  next c' heq =>
    rw [h] at heq
    cases heq
    rcases hrec with hr | ⟨snd, hr⟩
    · simp [dif_neg hv, hr]
    · simp [dif_neg hv, hr]

theorem backLoop_cons_unary_missing (powf : ℚ → ℚ → ℚ) (map : EdgeMap)
    (visited rest : List Nat) (nodes : List Node) (nodeId x : Nat) (c : Node)
    (h : getNode nodes nodeId = some c) (hv : c.id ∉ visited)
    (hrec : findRec map c.id = some (some x, none)) (hx : getNode nodes x = none) :
    backLoop powf map visited (nodeId :: rest) nodes = .error .missingNode := by
  rw [backLoop.eq_def]
  dsimp only
  split
  next heq => simp [h] at heq
  next c' heq =>
    rw [h] at heq
    cases heq
    simp [dif_neg hv, hrec, hx]

theorem backLoop_cons_unary (powf : ℚ → ℚ → ℚ) (map : EdgeMap)
    (visited rest : List Nat) (nodes : List Node) (nodeId x : Nat) (c selfN : Node)
    (h : getNode nodes nodeId = some c) (hv : c.id ∉ visited)
    (hrec : findRec map c.id = some (some x, none)) (hx : getNode nodes x = some selfN) :
    backLoop powf map visited (nodeId :: rest) nodes =
      backLoop powf map (c.id :: visited) (rest ++ [selfN.id])
        (applyUnary c.operator c.value c.gradient nodes x) := by
  rw [backLoop.eq_def]
  dsimp only
  split
  next heq => simp [h] at heq
  next c' heq =>
    rw [h] at heq
    cases heq
    simp [dif_neg hv, hrec, hx]

theorem backLoop_cons_assert (powf : ℚ → ℚ → ℚ) (map : EdgeMap)
    (visited rest : List Nat) (nodes : List Node) (nodeId x y : Nat) (c : Node)
    (h : getNode nodes nodeId = some c) (hv : c.id ∉ visited)
    (hrec : findRec map c.id = some (some x, some y)) (hxy : ¬ x < y) :
    backLoop powf map visited (nodeId :: rest) nodes = .error .assertOrder := by
  rw [backLoop.eq_def]
  dsimp only
  split
  next heq => simp [h] at heq
  next c' heq =>
    rw [h] at heq
    cases heq
    simp [dif_neg hv, hrec, hxy]

theorem backLoop_cons_binary_missing (powf : ℚ → ℚ → ℚ) (map : EdgeMap)
    (visited rest : List Nat) (nodes : List Node) (nodeId x y : Nat) (c : Node)
    (h : getNode nodes nodeId = some c) (hv : c.id ∉ visited)
    (hrec : findRec map c.id = some (some x, some y)) (hxy : x < y)
    (hy : getNode nodes y = none ∨ getNode nodes x = none) :
    backLoop powf map visited (nodeId :: rest) nodes = .error .missingNode := by
  rw [backLoop.eq_def]
  dsimp only
  split
  next heq => simp [h] at heq
  next c' heq =>
    rw [h] at heq
    cases heq
    rcases hy with hy | hx
    · simp [dif_neg hv, hrec, hxy, hy]
    · cases hgy : getNode nodes y with
      | none => simp [dif_neg hv, hrec, hxy, hgy]
      | some o => simp [dif_neg hv, hrec, hxy, hgy, hx]

theorem backLoop_cons_binary (powf : ℚ → ℚ → ℚ) (map : EdgeMap)
    (visited rest : List Nat) (nodes : List Node) (nodeId x y : Nat)
    (c selfN otherN : Node)
    (h : getNode nodes nodeId = some c) (hv : c.id ∉ visited)
    (hrec : findRec map c.id = some (some x, some y)) (hxy : x < y)
    (hy : getNode nodes y = some otherN) (hx : getNode nodes x = some selfN) :
    backLoop powf map visited (nodeId :: rest) nodes =
      backLoop powf map (c.id :: visited) (rest ++ [selfN.id, otherN.id])
        (applyBinary powf c.operator c.gradient selfN.value otherN.value nodes x y) := by
  rw [backLoop.eq_def]
  dsimp only
  split
  next heq => simp [h] at heq
  next c' heq =>
    rw [h] at heq
    cases heq
    simp [dif_neg hv, hrec, hxy, hy, hx]

theorem backLoop_frame_aux (powf : ℚ → ℚ → ℚ) (map : EdgeMap)
    (visited deque : List Nat) (nodes : List Node) :
    ∀ ns' vis', backLoop powf map visited deque nodes = .ok (ns', vis') →
      ns'.length = nodes.length ∧
      ∀ k : Nat, (getNode ns' k).map Node.id = (getNode nodes k).map Node.id ∧
        (getNode ns' k).map Node.value = (getNode nodes k).map Node.value ∧
        (getNode ns' k).map Node.operator = (getNode nodes k).map Node.operator := by
  induction visited, deque, nodes using backLoop.induct powf map with
  | case1 visited nodes =>
      intro ns' vis' hok
      rw [backLoop_nil] at hok
      simp only [Except.ok.injEq, Prod.mk.injEq] at hok
      obtain ⟨h1, _⟩ := hok
      subst h1
      exact ⟨rfl, fun k => ⟨rfl, rfl, rfl⟩⟩
  | case2 visited nodes nodeId rest h =>
      intro ns' vis' hok
      rw [backLoop_cons_missing _ _ _ _ _ _ h] at hok
      simp at hok
  | case3 visited nodes nodeId rest nodeClone h hv ih =>
      intro ns' vis' hok
      rw [backLoop_cons_visited _ _ _ _ _ _ _ h hv] at hok
      exact ih ns' vis' hok
  | case4 visited nodes nodeId rest nodeClone h hv hrec ih =>
      intro ns' vis' hok
      rw [backLoop_cons_skip _ _ _ _ _ _ _ h hv (Or.inl hrec)] at hok
      exact ih ns' vis' hok
  | case5 visited nodes nodeId rest nodeClone h hv snd hrec ih =>
      intro ns' vis' hok
      rw [backLoop_cons_skip _ _ _ _ _ _ _ h hv (Or.inr ⟨snd, hrec⟩)] at hok
      exact ih ns' vis' hok
  | case6 visited nodes nodeId rest nodeClone h hv x hrec hx =>
      intro ns' vis' hok
      rw [backLoop_cons_unary_missing _ _ _ _ _ _ _ _ h hv hrec hx] at hok
      simp at hok
  | case7 visited nodes nodeId rest nodeClone h hv x hrec selfN hx ih =>
      intro ns' vis' hok
      rw [backLoop_cons_unary _ _ _ _ _ _ _ _ _ h hv hrec hx] at hok
      obtain ⟨hlen, hcomp⟩ := ih ns' vis' hok
      refine ⟨hlen.trans (applyUnary_length _ _ _ _ _), fun k => ?_⟩
      obtain ⟨h1, h2, h3⟩ := hcomp k
      exact ⟨h1.trans (applyUnary_get?_id _ _ _ _ _ _),
        h2.trans (applyUnary_get?_value _ _ _ _ _ _),
        h3.trans (applyUnary_get?_operator _ _ _ _ _ _)⟩
  | case8 visited nodes nodeId rest nodeClone h hv x y hrec hxy a b hx hy ih =>
      intro ns' vis' hok
      rw [backLoop_cons_binary _ _ _ _ _ _ _ _ _ _ _ h hv hrec hxy hy hx] at hok
      obtain ⟨hlen, hcomp⟩ := ih ns' vis' hok
      refine ⟨hlen.trans (applyBinary_length _ _ _ _ _ _ _ _), fun k => ?_⟩
      obtain ⟨h1, h2, h3⟩ := hcomp k
      exact ⟨h1.trans (applyBinary_get?_id _ _ _ _ _ _ _ _ _),
        h2.trans (applyBinary_get?_value _ _ _ _ _ _ _ _ _),
        h3.trans (applyBinary_get?_operator _ _ _ _ _ _ _ _ _)⟩
  | case9 visited nodes nodeId rest nodeClone h hv x y hrec hxy hcontra =>
      intro ns' vis' hok
      have hmiss : getNode nodes y = none ∨ getNode nodes x = none := by
        cases hgy : getNode nodes y with
        | none => exact Or.inl rfl
        | some a =>
            cases hgx : getNode nodes x with
            | none => exact Or.inr rfl
            | some b => exact (hcontra a b hgy hgx).elim
      rw [backLoop_cons_binary_missing _ _ _ _ _ _ _ _ _ h hv hrec hxy hmiss] at hok
      simp at hok
  | case10 visited nodes nodeId rest nodeClone h hv x y hrec hxy =>
      intro ns' vis' hok
      rw [backLoop_cons_assert _ _ _ _ _ _ _ _ _ h hv hrec hxy] at hok
      simp at hok

theorem backLoop_visited_sub (powf : ℚ → ℚ → ℚ) (map : EdgeMap)
    (visited deque : List Nat) (nodes : List Node) :
    ∀ ns' vis', backLoop powf map visited deque nodes = .ok (ns', vis') →
      ∀ v ∈ visited, v ∈ vis' := by
  induction visited, deque, nodes using backLoop.induct powf map with
  | case1 visited nodes =>
      intro ns' vis' hok
      rw [backLoop_nil] at hok
      simp only [Except.ok.injEq, Prod.mk.injEq] at hok
      obtain ⟨_, h2⟩ := hok
      subst h2
      exact fun v hv => hv
  | case2 visited nodes nodeId rest h =>
      intro ns' vis' hok
      rw [backLoop_cons_missing _ _ _ _ _ _ h] at hok
      simp at hok
  | case3 visited nodes nodeId rest nodeClone h hv ih =>
      intro ns' vis' hok
      rw [backLoop_cons_visited _ _ _ _ _ _ _ h hv] at hok
      exact ih ns' vis' hok
  | case4 visited nodes nodeId rest nodeClone h hv hrec ih =>
      intro ns' vis' hok
      rw [backLoop_cons_skip _ _ _ _ _ _ _ h hv (Or.inl hrec)] at hok
      exact fun v hm => ih ns' vis' hok v (List.mem_cons_of_mem _ hm)
  | case5 visited nodes nodeId rest nodeClone h hv snd hrec ih =>
      intro ns' vis' hok
      rw [backLoop_cons_skip _ _ _ _ _ _ _ h hv (Or.inr ⟨snd, hrec⟩)] at hok
      exact fun v hm => ih ns' vis' hok v (List.mem_cons_of_mem _ hm)
  | case6 visited nodes nodeId rest nodeClone h hv x hrec hx =>
      intro ns' vis' hok
      rw [backLoop_cons_unary_missing _ _ _ _ _ _ _ _ h hv hrec hx] at hok
      simp at hok
  | case7 visited nodes nodeId rest nodeClone h hv x hrec selfN hx ih =>
      intro ns' vis' hok
      rw [backLoop_cons_unary _ _ _ _ _ _ _ _ _ h hv hrec hx] at hok
      exact fun v hm => ih ns' vis' hok v (List.mem_cons_of_mem _ hm)
  | case8 visited nodes nodeId rest nodeClone h hv x y hrec hxy a b hx hy ih =>
      intro ns' vis' hok
      rw [backLoop_cons_binary _ _ _ _ _ _ _ _ _ _ _ h hv hrec hxy hy hx] at hok
      exact fun v hm => ih ns' vis' hok v (List.mem_cons_of_mem _ hm)
  | case9 visited nodes nodeId rest nodeClone h hv x y hrec hxy hcontra =>
      intro ns' vis' hok
      have hmiss : getNode nodes y = none ∨ getNode nodes x = none := by
        cases hgy : getNode nodes y with
        | none => exact Or.inl rfl
        | some a =>
            cases hgx : getNode nodes x with
            | none => exact Or.inr rfl
            | some b => exact (hcontra a b hgy hgx).elim
      rw [backLoop_cons_binary_missing _ _ _ _ _ _ _ _ _ h hv hrec hxy hmiss] at hok
      simp at hok
  | case10 visited nodes nodeId rest nodeClone h hv x y hrec hxy =>
      intro ns' vis' hok
      rw [backLoop_cons_assert _ _ _ _ _ _ _ _ _ h hv hrec hxy] at hok
      simp at hok

theorem backLoop_grad_aux (powf : ℚ → ℚ → ℚ) (map : EdgeMap)
    (visited deque : List Nat) (nodes : List Node) :
    ∀ ns' vis', backLoop powf map visited deque nodes = .ok (ns', vis') →
      ∀ k : Nat, (∀ p ∈ vis', ¬ operandOf map p k) →
        (getNode ns' k).map Node.gradient = (getNode nodes k).map Node.gradient := by
  induction visited, deque, nodes using backLoop.induct powf map with
  | case1 visited nodes =>
      intro ns' vis' hok
      rw [backLoop_nil] at hok
      simp only [Except.ok.injEq, Prod.mk.injEq] at hok
      obtain ⟨h1, _⟩ := hok
      subst h1
      exact fun k _ => rfl
  | case2 visited nodes nodeId rest h =>
      intro ns' vis' hok
      rw [backLoop_cons_missing _ _ _ _ _ _ h] at hok
      simp at hok
  | case3 visited nodes nodeId rest nodeClone h hv ih =>
      intro ns' vis' hok
      rw [backLoop_cons_visited _ _ _ _ _ _ _ h hv] at hok
      exact ih ns' vis' hok
  | case4 visited nodes nodeId rest nodeClone h hv hrec ih =>
      intro ns' vis' hok
      rw [backLoop_cons_skip _ _ _ _ _ _ _ h hv (Or.inl hrec)] at hok
      exact ih ns' vis' hok
  | case5 visited nodes nodeId rest nodeClone h hv snd hrec ih =>
      intro ns' vis' hok
      rw [backLoop_cons_skip _ _ _ _ _ _ _ h hv (Or.inr ⟨snd, hrec⟩)] at hok
      exact ih ns' vis' hok
  | case6 visited nodes nodeId rest nodeClone h hv x hrec hx =>
      intro ns' vis' hok
      rw [backLoop_cons_unary_missing _ _ _ _ _ _ _ _ h hv hrec hx] at hok
      simp at hok
  | case7 visited nodes nodeId rest nodeClone h hv x hrec selfN hx ih =>
      intro ns' vis' hok
      rw [backLoop_cons_unary _ _ _ _ _ _ _ _ _ h hv hrec hx] at hok
      intro k hk
      have hmem : nodeClone.id ∈ vis' :=
        backLoop_visited_sub powf map _ _ _ ns' vis' hok nodeClone.id (List.mem_cons_self _ _)
      have hkx : k ≠ x := by
        intro hkx
        subst hkx
        exact hk nodeClone.id hmem ⟨(some k, none), hrec, Or.inl rfl⟩
      have := ih ns' vis' hok k hk
      rw [this, applyUnary_get?_ne _ _ _ _ _ _ hkx]
  | case8 visited nodes nodeId rest nodeClone h hv x y hrec hxy a b hx hy ih =>
      intro ns' vis' hok
      rw [backLoop_cons_binary _ _ _ _ _ _ _ _ _ _ _ h hv hrec hxy hy hx] at hok
      intro k hk
      have hmem : nodeClone.id ∈ vis' :=
        backLoop_visited_sub powf map _ _ _ ns' vis' hok nodeClone.id (List.mem_cons_self _ _)
      have hkx : k ≠ x := by
        intro hkx
        subst hkx
        exact hk nodeClone.id hmem ⟨(some k, some y), hrec, Or.inl rfl⟩
      have hky : k ≠ y := by
        intro hky
        subst hky
        exact hk nodeClone.id hmem ⟨(some x, some k), hrec, Or.inr rfl⟩
      have := ih ns' vis' hok k hk
      rw [this, applyBinary_get?_ne _ _ _ _ _ _ _ _ _ hkx hky]
  | case9 visited nodes nodeId rest nodeClone h hv x y hrec hxy hcontra =>
      intro ns' vis' hok
      have hmiss : getNode nodes y = none ∨ getNode nodes x = none := by
        cases hgy : getNode nodes y with
        | none => exact Or.inl rfl
        | some a =>
            cases hgx : getNode nodes x with
            | none => exact Or.inr rfl
            | some b => exact (hcontra a b hgy hgx).elim
      rw [backLoop_cons_binary_missing _ _ _ _ _ _ _ _ _ h hv hrec hxy hmiss] at hok
      simp at hok
  | case10 visited nodes nodeId rest nodeClone h hv x y hrec hxy =>
      intro ns' vis' hok
      rw [backLoop_cons_assert _ _ _ _ _ _ _ _ _ h hv hrec hxy] at hok
      simp at hok

theorem WF_of_map_id_eq (ns ns' : List Node)
    (hmap : ∀ k : Nat, (getNode ns' k).map Node.id = (getNode ns k).map Node.id)
    (hWF : ∀ (idx : Nat) (n : Node), getNode ns idx = some n → n.id = idx) :
    ∀ (idx : Nat) (n : Node), getNode ns' idx = some n → n.id = idx := by
  intro idx n hn
  have hmi := hmap idx
  rw [hn] at hmi
  cases hns : getNode ns idx with
  | none => rw [hns] at hmi; simp at hmi
  | some m =>
      rw [hns] at hmi
      simp only [Option.map_some', Option.some.injEq] at hmi
      rw [hmi]
      exact hWF idx m hns

theorem backLoop_reach_aux (powf : ℚ → ℚ → ℚ) (map : EdgeMap) (root : Nat)
    (visited deque : List Nat) (nodes : List Node) :
    ∀ ns' vis',
      (∀ d ∈ deque, reaches map root d) →
      (∀ (idx : Nat) (n : Node), getNode nodes idx = some n → n.id = idx) →
      backLoop powf map visited deque nodes = .ok (ns', vis') →
      (∀ v ∈ vis', v ∈ visited ∨ reaches map root v) ∧
      (∀ k : Nat, ¬ reaches map root k → getNode ns' k = getNode nodes k) := by
  induction visited, deque, nodes using backLoop.induct powf map with
  | case1 visited nodes =>
      intro ns' vis' hdeq hWF hok
      rw [backLoop_nil] at hok
      simp only [Except.ok.injEq, Prod.mk.injEq] at hok
      obtain ⟨h1, h2⟩ := hok
      subst h1
      subst h2
      exact ⟨fun v hv => Or.inl hv, fun k _ => rfl⟩
  | case2 visited nodes nodeId rest h =>
      intro ns' vis' hdeq hWF hok
      rw [backLoop_cons_missing _ _ _ _ _ _ h] at hok
      simp at hok
  | case3 visited nodes nodeId rest nodeClone h hv ih =>
      intro ns' vis' hdeq hWF hok
      rw [backLoop_cons_visited _ _ _ _ _ _ _ h hv] at hok
      exact ih ns' vis' (fun d hd => hdeq d (List.mem_cons_of_mem _ hd)) hWF hok
  | case4 visited nodes nodeId rest nodeClone h hv hrec ih =>
      intro ns' vis' hdeq hWF hok
      rw [backLoop_cons_skip _ _ _ _ _ _ _ h hv (Or.inl hrec)] at hok
      obtain ⟨hvis, hfr⟩ := ih ns' vis' (fun d hd => hdeq d (List.mem_cons_of_mem _ hd)) hWF hok
      refine ⟨fun v hm => ?_, hfr⟩
      rcases hvis v hm with hm' | hr
      · rcases List.mem_cons.mp hm' with he | hm''
        · subst he
          exact Or.inr (hWF nodeId nodeClone h ▸ hdeq nodeId (List.mem_cons_self _ _))
        · exact Or.inl hm''
      · exact Or.inr hr
  | case5 visited nodes nodeId rest nodeClone h hv snd hrec ih =>
      intro ns' vis' hdeq hWF hok
      rw [backLoop_cons_skip _ _ _ _ _ _ _ h hv (Or.inr ⟨snd, hrec⟩)] at hok
      obtain ⟨hvis, hfr⟩ := ih ns' vis' (fun d hd => hdeq d (List.mem_cons_of_mem _ hd)) hWF hok
      refine ⟨fun v hm => ?_, hfr⟩
      rcases hvis v hm with hm' | hr
      · rcases List.mem_cons.mp hm' with he | hm''
        · subst he
          exact Or.inr (hWF nodeId nodeClone h ▸ hdeq nodeId (List.mem_cons_self _ _))
        · exact Or.inl hm''
      · exact Or.inr hr
  | case6 visited nodes nodeId rest nodeClone h hv x hrec hx =>
      intro ns' vis' hdeq hWF hok
      rw [backLoop_cons_unary_missing _ _ _ _ _ _ _ _ h hv hrec hx] at hok
      simp at hok
  | case7 visited nodes nodeId rest nodeClone h hv x hrec selfN hx ih =>
      intro ns' vis' hdeq hWF hok
      rw [backLoop_cons_unary _ _ _ _ _ _ _ _ _ h hv hrec hx] at hok
      have hid : nodeClone.id = nodeId := hWF nodeId nodeClone h
      have hreachId : reaches map root nodeId := hdeq nodeId (List.mem_cons_self _ _)
      have hop : operandOf map nodeId x := ⟨(some x, none), hid ▸ hrec, Or.inl rfl⟩
      have hreachx : reaches map root x := Relation.ReflTransGen.tail hreachId hop
      have hWF1 := WF_of_map_id_eq nodes
        (applyUnary nodeClone.operator nodeClone.value nodeClone.gradient nodes x)
        (fun k => applyUnary_get?_id _ _ _ _ _ k) hWF
      have hdeq1 : ∀ d ∈ rest ++ [selfN.id], reaches map root d := by
        intro d hd
        rcases List.mem_append.mp hd with hd | hd
        · exact hdeq d (List.mem_cons_of_mem _ hd)
        · rw [List.mem_singleton.mp hd, hWF x selfN hx]
          exact hreachx
      obtain ⟨hvis, hfr⟩ := ih ns' vis' hdeq1 hWF1 hok
      refine ⟨fun v hm => ?_, fun k hk => ?_⟩
      · rcases hvis v hm with hm' | hr
        · rcases List.mem_cons.mp hm' with he | hm''
          · subst he
            exact Or.inr (hid ▸ hreachId)
          · exact Or.inl hm''
        · exact Or.inr hr
      · have hkx : k ≠ x := fun he => hk (he ▸ hreachx)
        rw [hfr k hk, applyUnary_get?_ne _ _ _ _ _ _ hkx]
  | case8 visited nodes nodeId rest nodeClone h hv x y hrec hxy a b hx hy ih =>
      intro ns' vis' hdeq hWF hok
      rw [backLoop_cons_binary _ _ _ _ _ _ _ _ _ _ _ h hv hrec hxy hy hx] at hok
      have hid : nodeClone.id = nodeId := hWF nodeId nodeClone h
      have hreachId : reaches map root nodeId := hdeq nodeId (List.mem_cons_self _ _)
      have hopx : operandOf map nodeId x := ⟨(some x, some y), hid ▸ hrec, Or.inl rfl⟩
      have hopy : operandOf map nodeId y := ⟨(some x, some y), hid ▸ hrec, Or.inr rfl⟩
      have hreachx : reaches map root x := Relation.ReflTransGen.tail hreachId hopx
      have hreachy : reaches map root y := Relation.ReflTransGen.tail hreachId hopy
      have hWF1 := WF_of_map_id_eq nodes
        (applyBinary powf nodeClone.operator nodeClone.gradient b.value a.value nodes x y)
        (fun k => applyBinary_get?_id _ _ _ _ _ _ _ _ k) hWF
      have hdeq1 : ∀ d ∈ rest ++ [b.id, a.id], reaches map root d := by
        intro d hd
        rcases List.mem_append.mp hd with hd | hd
        · exact hdeq d (List.mem_cons_of_mem _ hd)
        · rcases List.mem_cons.mp hd with he | hd'
          · rw [he, hWF x b hx]
            exact hreachx
          · rw [List.mem_singleton.mp hd', hWF y a hy]
            exact hreachy
      obtain ⟨hvis, hfr⟩ := ih ns' vis' hdeq1 hWF1 hok
      refine ⟨fun v hm => ?_, fun k hk => ?_⟩
      · rcases hvis v hm with hm' | hr
        · rcases List.mem_cons.mp hm' with he | hm''
          · subst he
            exact Or.inr (hid ▸ hreachId)
          · exact Or.inl hm''
        · exact Or.inr hr
      · have hkx : k ≠ x := fun he => hk (he ▸ hreachx)
        have hky : k ≠ y := fun he => hk (he ▸ hreachy)
        rw [hfr k hk, applyBinary_get?_ne _ _ _ _ _ _ _ _ _ hkx hky]
  | case9 visited nodes nodeId rest nodeClone h hv x y hrec hxy hcontra =>
      intro ns' vis' hdeq hWF hok
      have hmiss : getNode nodes y = none ∨ getNode nodes x = none := by
        cases hgy : getNode nodes y with
        | none => exact Or.inl rfl
        | some a =>
            cases hgx : getNode nodes x with
            | none => exact Or.inr rfl
            | some b => exact (hcontra a b hgy hgx).elim
      rw [backLoop_cons_binary_missing _ _ _ _ _ _ _ _ _ h hv hrec hxy hmiss] at hok
      simp at hok
  | case10 visited nodes nodeId rest nodeClone h hv x y hrec hxy =>
      intro ns' vis' hdeq hWF hok
      rw [backLoop_cons_assert _ _ _ _ _ _ _ _ _ h hv hrec hxy] at hok
      simp at hok

set_option maxRecDepth 8000

/-- Claim C2: for the diamond graph built in creation order `a`, `b`,
`c = add(a,b)`, `d = mul(a,b)`, `e = add(c,d)`, with `e`'s gradient seeded to
`1` and all other gradients `0`, running `backwards` yields
`a.gradient = 1 + b.value` and `b.gradient = 1 + a.value`. -/
theorem claim2_diamond_gradients (powf : ℚ → ℚ → ℚ) (va vb : ℚ) :
    gradsOf (runGraph powf (mkDiamond va vb)) 0 = some (1 + vb) ∧
    gradsOf (runGraph powf (mkDiamond va vb)) 1 = some (1 + va) := by
  have hb : mkDiamond va vb = .ok
      ([(4, (some 2, some 3)), (3, (some 0, some 1)), (2, (some 0, some 1))],
       [{ id := 0, value := va, gradient := 0, operator := none },
        { id := 1, value := vb, gradient := 0, operator := none },
        { id := 2, value := va + vb, gradient := 0, operator := some .Plus },
        { id := 3, value := va * vb, gradient := 0, operator := some .Mul },
        { id := 4, value := va + vb + va * vb, gradient := 1, operator := some .Plus }]) := by
    simp [mkDiamond, new_node, add, mul, setGradAt, getNode, Bind.bind, Except.bind]
  constructor <;>
    simp [runGraph, hb, backwards, backLoop, findRec, applyBinary, applyUnary,
      addGradAt, getNode, gradsOf, gradAt, Bind.bind, Except.bind]

/-- Claim C3: `add(a,b)` creates a node whose value is `a.value + b.value`
and `mul(a,b)` one whose value is `a.value * b.value`; on the graph holding
only the two operand leaves and the new node, seeding the new node's
gradient to `1` and running `backwards` gives both operands gradient `1`
for `add`, and `a.gradient = b.value`, `b.gradient = a.value` for `mul`. -/
theorem claim3_add_mul_forward_backward (powf : ℚ → ℚ → ℚ) (va vb : ℚ) :
    valsOf (runGraph powf (mkAdd2 va vb 1)) 2 = some (va + vb) ∧
    gradsOf (runGraph powf (mkAdd2 va vb 1)) 0 = some 1 ∧
    gradsOf (runGraph powf (mkAdd2 va vb 1)) 1 = some 1 ∧
    valsOf (runGraph powf (mkMul2 va vb 1)) 2 = some (va * vb) ∧
    gradsOf (runGraph powf (mkMul2 va vb 1)) 0 = some vb ∧
    gradsOf (runGraph powf (mkMul2 va vb 1)) 1 = some va := by
  have ha : mkAdd2 va vb 1 = .ok ([(2, (some 0, some 1))],
      [{ id := 0, value := va, gradient := 0, operator := none },
       { id := 1, value := vb, gradient := 0, operator := none },
       { id := 2, value := va + vb, gradient := 1, operator := some .Plus }]) := by
    simp [mkAdd2, new_node, add, setGradAt, getNode, Bind.bind, Except.bind]
  have hm : mkMul2 va vb 1 = .ok ([(2, (some 0, some 1))],
      [{ id := 0, value := va, gradient := 0, operator := none },
       { id := 1, value := vb, gradient := 0, operator := none },
       { id := 2, value := va * vb, gradient := 1, operator := some .Mul }]) := by
    simp [mkMul2, new_node, mul, setGradAt, getNode, Bind.bind, Except.bind]
  refine ⟨?_, ?_, ?_, ?_, ?_, ?_⟩ <;>
    simp [runGraph, ha, hm, backwards, backLoop, findRec, applyBinary, applyUnary,
      addGradAt, getNode, gradsOf, gradAt, valsOf, valueAt, Bind.bind, Except.bind]

/-- Claim C4: `pow(a,b)` creates a node with value `powf a.value b.value`
(the abstract counterpart of `a.value.powf(b.value)`); during `backwards`
a `Pow` node with output gradient `g` adds exactly
`b.value * powf a.value (1 - b.value) * g` to the base operand's gradient,
and the exponent operand's gradient receives no contribution. -/
theorem claim4_pow_forward_backward (powf : ℚ → ℚ → ℚ) (va vb g : ℚ) :
    valsOf (runGraph powf (mkPow2 powf va vb g)) 2 = some (powf va vb) ∧
    gradsOf (runGraph powf (mkPow2 powf va vb g)) 0 =
      some (vb * powf va (1 - vb) * g) ∧
    gradsOf (runGraph powf (mkPow2 powf va vb g)) 1 = some 0 := by
  have hp : mkPow2 powf va vb g = .ok ([(2, (some 0, some 1))],
      [{ id := 0, value := va, gradient := 0, operator := none },
       { id := 1, value := vb, gradient := 0, operator := none },
       { id := 2, value := powf va vb, gradient := g, operator := some .Pow }]) := by
    simp [mkPow2, new_node, pow, setGradAt, getNode, Bind.bind, Except.bind]
  refine ⟨?_, ?_, ?_⟩ <;>
    simp [runGraph, hp, backwards, backLoop, findRec, applyBinary, applyUnary,
      addGradAt, getNode, gradsOf, gradAt, valsOf, valueAt, Bind.bind, Except.bind]

/-- Claim C6: `relu(x)` creates a node whose value is `max 0 x.value`
(`x.value` when positive, else `0`); during `backwards` the `Relu` node adds
its output gradient `g` to its operand's gradient exactly when the `Relu`
node's value is positive, which here happens exactly when `x.value > 0`. -/
theorem claim6_relu_forward_backward (powf : ℚ → ℚ → ℚ) (xv g : ℚ) :
    valsOf (runGraph powf (mkRelu1 xv g)) 1 = some (max 0 xv) ∧
    gradsOf (runGraph powf (mkRelu1 xv g)) 0 = some (if 0 < xv then g else 0) := by
  by_cases hx : 0 < xv
  · have hr : mkRelu1 xv g = .ok ([(1, (some 0, none))],
        [{ id := 0, value := xv, gradient := 0, operator := none },
         { id := 1, value := xv, gradient := g, operator := some .Relu }]) := by
      simp [mkRelu1, new_node, relu, setGradAt, getNode, Bind.bind, Except.bind, hx]
    rw [max_eq_right hx.le, if_pos hx]
    constructor <;>
      simp [runGraph, hr, backwards, backLoop, findRec, applyBinary, applyUnary,
        addGradAt, getNode, gradsOf, gradAt, valsOf, valueAt, Bind.bind, Except.bind, hx]
  · have hr : mkRelu1 xv g = .ok ([(1, (some 0, none))],
        [{ id := 0, value := xv, gradient := 0, operator := none },
         { id := 1, value := 0, gradient := g, operator := some .Relu }]) := by
      simp [mkRelu1, new_node, relu, setGradAt, getNode, Bind.bind, Except.bind, hx]
    rw [max_eq_left (not_lt.mp hx), if_neg hx]
    constructor <;>
      simp [runGraph, hr, backwards, backLoop, findRec, applyBinary, applyUnary,
        addGradAt, getNode, gradsOf, gradAt, valsOf, valueAt, Bind.bind, Except.bind]

theorem getNode_lt_length (ns : List Node) (i : Nat) (hi : i < ns.length) :
    ∃ a, getNode ns i = some a := by
  induction ns generalizing i with
  | nil => simp at hi
  | cons n t ih =>
      cases i with
      | zero => exact ⟨n, rfl⟩
      | succ i' => exact ih i' (by simpa using hi)

theorem getNode_append_length (ns : List Node) (c : Node) :
    getNode (ns ++ [c]) ns.length = some c := by
  induction ns with
  | nil => rfl
  | cons n t ih => simpa [getNode] using ih

/-- Claim C1 (evaluation at the failing input): on the reconvergent graph of
`mkReconv` (`x = leaf 1`, `a = relu(x)`, `b = leaf 5`, `c = add(a, b)`,
`e = add(a, c)`, seed `e.gradient = 1`), the visited list returned by
`backwards` is `[2, 0, 3, 1, 4]` (most recent first), i.e. the processing
order is `e (4)`, `a (1)`, `c (3)`, `x (0)`, `b (2)`: node `a` is processed
before node `c` although `c` contributes to `a`'s gradient.  Consequently
`a`'s gradient does reach `2` in the end, but only `1` of it is propagated
to `x`; a reverse-topological order as required by the claim would give
`x.gradient = 2`. -/
theorem claim1_bfs_breaks_reverse_topological_order :
    visOf (runGraph (fun _ _ => 0) mkReconv) = some [2, 0, 3, 1, 4] ∧
    gradsOf (runGraph (fun _ _ => 0) mkReconv) 1 = some 2 ∧
    gradsOf (runGraph (fun _ _ => 0) mkReconv) 0 = some 1 ∧
    (1 : ℚ) ≠ 2 := by
  have hb : mkReconv = .ok
      ([(4, (some 1, some 3)), (3, (some 1, some 2)), (1, (some 0, none))],
       [{ id := 0, value := 1, gradient := 0, operator := none },
        { id := 1, value := 1, gradient := 0, operator := some .Relu },
        { id := 2, value := 5, gradient := 0, operator := none },
        { id := 3, value := 6, gradient := 0, operator := some .Plus },
        { id := 4, value := 7, gradient := 1, operator := some .Plus }]) := by
    simp [mkReconv, new_node, relu, add, setGradAt, getNode, Bind.bind, Except.bind]
    norm_num
  refine ⟨?_, ?_, ?_, by norm_num⟩ <;>
    simp [runGraph, hb, backwards, backLoop, findRec, applyBinary, applyUnary,
      addGradAt, getNode, visOf, gradsOf, gradAt, Bind.bind, Except.bind] <;>
    norm_num

/-- Claim C5 (counterexample): on the single-`add` graph `a = leaf 4`,
`b = leaf 5`, `c = add(a, b)` with `c`'s gradient seeded to `1`, the first
`backwards` run leaves `c.gradient = 1` and a second run without re-zeroing
leaves `c.gradient = 1` as well, not the doubled `2 * 1`: the seed node
receives no contributions, so its gradient is not doubled, refuting the
claim that every node's gradient doubles. -/
theorem claim5_counterexample_seed_not_doubled :
    gradsOf (runGraph (fun _ _ => 0) (mkAdd2 4 5 1)) 2 = some 1 ∧
    gradsOf (runGraphTwice (fun _ _ => 0) (mkAdd2 4 5 1)) 2 = some 1 ∧
    ¬ ((1 : ℚ) = 2 * 1) := by
  have ha : mkAdd2 4 5 1 = .ok ([(2, (some 0, some 1))],
      [{ id := 0, value := 4, gradient := 0, operator := none },
       { id := 1, value := 5, gradient := 0, operator := none },
       { id := 2, value := 9, gradient := 1, operator := some .Plus }]) := by
    simp [mkAdd2, new_node, add, setGradAt, getNode, Bind.bind, Except.bind]
    norm_num
  refine ⟨?_, ?_, by norm_num⟩ <;>
    simp [runGraph, runGraphTwice, ha, backwards, backLoop, findRec, applyBinary,
      applyUnary, addGradAt, getNode, gradsOf, gradAt, Bind.bind, Except.bind]

/-- Claim C5 (amended): a second `backwards` run without re-zeroing
accumulates the same contributions again on top of the first run's
gradients; on the single-`add` graph seeded with `g` at `c`, both operands
end at `2 * g` after the second run while the seed node `c`, which receives
no contributions, stays at `g` instead of doubling. -/
theorem claim5_amended_second_run_accumulates (powf : ℚ → ℚ → ℚ) (va vb g : ℚ) :
    gradsOf (runGraph powf (mkAdd2 va vb g)) 0 = some g ∧
    gradsOf (runGraph powf (mkAdd2 va vb g)) 1 = some g ∧
    gradsOf (runGraph powf (mkAdd2 va vb g)) 2 = some g ∧
    gradsOf (runGraphTwice powf (mkAdd2 va vb g)) 0 = some (2 * g) ∧
    gradsOf (runGraphTwice powf (mkAdd2 va vb g)) 1 = some (2 * g) ∧
    gradsOf (runGraphTwice powf (mkAdd2 va vb g)) 2 = some g := by
  have ha : mkAdd2 va vb g = .ok ([(2, (some 0, some 1))],
      [{ id := 0, value := va, gradient := 0, operator := none },
       { id := 1, value := vb, gradient := 0, operator := none },
       { id := 2, value := va + vb, gradient := g, operator := some .Plus }]) := by
    simp [mkAdd2, new_node, add, setGradAt, getNode, Bind.bind, Except.bind]
  refine ⟨?_, ?_, ?_, ?_, ?_, ?_⟩ <;>
    simp [runGraph, runGraphTwice, ha, backwards, backLoop, findRec, applyBinary,
      applyUnary, addGradAt, getNode, gradsOf, gradAt, Bind.bind, Except.bind] <;>
    ring

/-- Claim C7: every operator primitive validates its operand ids against the
arena before doing anything: when a supplied id is absent the primitive fails
with `operandNotFound` (and, the embedding being functional, the arena and
edge map it was given are untouched); when all supplied ids exist it appends
exactly one node tagged with the operator and carrying the eagerly computed
value, inserts exactly one edge record keyed by the new node's id, and
returns the new id `nodes.length` together with the value. -/
theorem claim7_primitive_validation (powf : ℚ → ℚ → ℚ) (map : EdgeMap)
    (nodes : List Node) (i j : Nat) :
    ((getNode nodes i = none ∨ getNode nodes j = none) →
      add map nodes i j = .error .operandNotFound ∧
      mul map nodes i j = .error .operandNotFound ∧
      pow powf map nodes i j = .error .operandNotFound) ∧
    (getNode nodes i = none → relu map nodes i = .error .operandNotFound) ∧
    (∀ a b : Node, getNode nodes i = some a → getNode nodes j = some b →
      add map nodes i j = .ok ((nodes.length, (some i, some j)) :: map,
        nodes ++ [Node.mk nodes.length (a.value + b.value) 0 (some .Plus)],
        nodes.length, a.value + b.value) ∧
      mul map nodes i j = .ok ((nodes.length, (some i, some j)) :: map,
        nodes ++ [Node.mk nodes.length (a.value * b.value) 0 (some .Mul)],
        nodes.length, a.value * b.value) ∧
      pow powf map nodes i j = .ok ((nodes.length, (some i, some j)) :: map,
        nodes ++ [Node.mk nodes.length (powf a.value b.value) 0 (some .Pow)],
        nodes.length, powf a.value b.value)) ∧
    (∀ a : Node, getNode nodes i = some a →
      relu map nodes i = .ok ((nodes.length, (some i, none)) :: map,
        nodes ++ [Node.mk nodes.length (if a.value > 0 then a.value else 0) 0 (some .Relu)],
        nodes.length, if a.value > 0 then a.value else 0)) := by
  refine ⟨?_, ?_, ?_, ?_⟩
  · intro hor
    refine ⟨?_, ?_, ?_⟩ <;>
    · rcases hor with h | h
      · cases hj : getNode nodes j <;> simp [add, mul, pow, h, hj]
      · cases hi : getNode nodes i <;> simp [add, mul, pow, h, hi]
  · intro h
    simp [relu, h]
  · intro a b ha hb
    exact ⟨by simp [add, ha, hb], by simp [mul, ha, hb], by simp [pow, ha, hb]⟩
  · intro a ha
    simp [relu, ha]

theorem claim7_primitive_validation_witness :
    add [] [{ id := 0, value := 3, gradient := 0, operator := none }] 0 1 =
      .error .operandNotFound ∧
    relu [] [{ id := 0, value := 3, gradient := 0, operator := none }] 0 =
      .ok ([(1, (some 0, none))],
        [{ id := 0, value := 3, gradient := 0, operator := none },
         { id := 1, value := 3, gradient := 0, operator := some .Relu }], 1, 3) := by
  constructor
  · exact ((claim7_primitive_validation (fun _ _ => 0) []
      [{ id := 0, value := 3, gradient := 0, operator := none }] 0 1).1
      (Or.inr (by simp [getNode]))).1
  · have h := (claim7_primitive_validation (fun _ _ => 0) []
      [{ id := 0, value := 3, gradient := 0, operator := none }] 0 1).2.2.2
      { id := 0, value := 3, gradient := 0, operator := none } (by simp [getNode])
    norm_num at h
    exact h

/-- Claim C9: the traversal asserts `y > x` on every two-operand edge record
`(some x, some y)` it dereferences — the moment it pops an unvisited node
whose record is unordered (`y ≤ x`), `backwards` stops with the assertion
failure, so a run succeeds only if every dereferenced two-operand record is
ordered.  In particular calling `add` with a left operand id not smaller
than the right one (for instance `add(x, x)` to compute `x + x`) produces a
node whose record immediately trips the assertion in the next `backwards`
run. -/
theorem claim9_unordered_edge_record_asserts (powf : ℚ → ℚ → ℚ) (map : EdgeMap)
    (nodes : List Node) :
    (∀ (visited rest : List Nat) (ns : List Node) (nodeId x y : Nat) (c : Node),
      getNode ns nodeId = some c → c.id ∉ visited →
      findRec map c.id = some (some x, some y) → y ≤ x →
      backLoop powf map visited (nodeId :: rest) ns = .error .assertOrder) ∧
    (∀ i j : Nat, j ≤ i → i < nodes.length → j < nodes.length →
      (∃ m' ns' v, add map nodes i j = .ok (m', ns', nodes.length, v) ∧
        backwards powf m' ns' = .error .assertOrder) ∧
      (∃ m' ns' v, mul map nodes i j = .ok (m', ns', nodes.length, v) ∧
        backwards powf m' ns' = .error .assertOrder) ∧
      (∃ m' ns' v, pow powf map nodes i j = .ok (m', ns', nodes.length, v) ∧
        backwards powf m' ns' = .error .assertOrder)) := by
  constructor
  · intro visited rest ns nodeId x y c h hv hrec hyx
    exact backLoop_cons_assert powf map visited rest ns nodeId x y c h hv hrec (by omega)
  · intro i j hji hi hj
    obtain ⟨a, ha⟩ := getNode_lt_length nodes i hi
    obtain ⟨b, hb⟩ := getNode_lt_length nodes j hj
    refine ⟨⟨(nodes.length, (some i, some j)) :: map,
        nodes ++ [Node.mk nodes.length (a.value + b.value) 0 (some .Plus)],
        a.value + b.value, by simp [add, ha, hb], ?_⟩,
      ⟨(nodes.length, (some i, some j)) :: map,
        nodes ++ [Node.mk nodes.length (a.value * b.value) 0 (some .Mul)],
        a.value * b.value, by simp [mul, ha, hb], ?_⟩,
      ⟨(nodes.length, (some i, some j)) :: map,
        nodes ++ [Node.mk nodes.length (powf a.value b.value) 0 (some .Pow)],
        powf a.value b.value, by simp [pow, ha, hb], ?_⟩⟩ <;>
    · simp only [backwards, List.getLast?_concat]
      exact backLoop_cons_assert powf _ [] [] _ nodes.length i j _
        (getNode_append_length nodes _) (by simp) (by simp [findRec]) (by omega)

theorem claim9_unordered_edge_record_asserts_witness :
    ∃ m' ns' v,
      add [] [{ id := 0, value := 2, gradient := 0, operator := none }] 0 0 =
        .ok (m', ns', 1, v) ∧
      backwards (fun _ _ => 0) m' ns' = .error .assertOrder := by
  have h := ((claim9_unordered_edge_record_asserts (fun _ _ => 0) []
    [{ id := 0, value := 2, gradient := 0, operator := none }]).2 0 0
    (Nat.le_refl 0) (by norm_num) (by norm_num)).1
  simpa using h

/-- Claim C8: a successful `backwards` run only mutates gradients: the arena
keeps its length and every node keeps its id, value and operator tag (the
edge map is passed read-only in the embedding because the source only ever
calls `map.get` on it); moreover gradients change only at operand indices of
visited (processed) nodes, so a node that is never scheduled — in particular
one that is no operand of any processed node — keeps whatever gradient it
had before the run. -/
theorem claim8_backwards_frame (powf : ℚ → ℚ → ℚ) (map : EdgeMap)
    (nodes ns' : List Node) (vis' : List Nat)
    (hok : backwards powf map nodes = .ok (ns', vis')) :
    ns'.length = nodes.length ∧
    (∀ k : Nat, (getNode ns' k).map Node.id = (getNode nodes k).map Node.id ∧
      (getNode ns' k).map Node.value = (getNode nodes k).map Node.value ∧
      (getNode ns' k).map Node.operator = (getNode nodes k).map Node.operator) ∧
    (∀ k : Nat, (∀ p ∈ vis', ¬ operandOf map p k) →
      (getNode ns' k).map Node.gradient = (getNode nodes k).map Node.gradient) := by
  cases hlast : nodes.getLast? with
  | none => simp [backwards, hlast] at hok
  | some last =>
      simp only [backwards, hlast] at hok
      obtain ⟨hlen, hcomp⟩ := backLoop_frame_aux powf map [] [last.id] nodes ns' vis' hok
      exact ⟨hlen, hcomp,
        fun k hk => backLoop_grad_aux powf map [] [last.id] nodes ns' vis' hok k hk⟩

theorem claim8_backwards_frame_witness :
    (getNode [{ id := 0, value := 2, gradient := 0, operator := none },
              { id := 1, value := 3, gradient := 0, operator := none },
              { id := 2, value := 5, gradient := 1, operator := some .Plus },
              { id := 3, value := 7, gradient := 0, operator := none }] 2).map Node.value =
      (getNode [{ id := 0, value := 2, gradient := 0, operator := none },
              { id := 1, value := 3, gradient := 0, operator := none },
              { id := 2, value := 5, gradient := 1, operator := some .Plus },
              { id := 3, value := 7, gradient := 0, operator := none }] 2).map Node.value := by
  have hok : backwards (fun _ _ => 0) [(2, (some 0, some 1))]
      [{ id := 0, value := 2, gradient := 0, operator := none },
       { id := 1, value := 3, gradient := 0, operator := none },
       { id := 2, value := 5, gradient := 1, operator := some .Plus },
       { id := 3, value := 7, gradient := 0, operator := none }] =
      .ok ([{ id := 0, value := 2, gradient := 0, operator := none },
       { id := 1, value := 3, gradient := 0, operator := none },
       { id := 2, value := 5, gradient := 1, operator := some .Plus },
       { id := 3, value := 7, gradient := 0, operator := none }], [3]) := by
    have h1 : backwards (fun _ _ => 0) [(2, (some 0, some 1))]
        [{ id := 0, value := 2, gradient := 0, operator := none },
         { id := 1, value := 3, gradient := 0, operator := none },
         { id := 2, value := 5, gradient := 1, operator := some .Plus },
         { id := 3, value := 7, gradient := 0, operator := none }] =
        backLoop (fun _ _ => 0) [(2, (some 0, some 1))] [] [3]
        [{ id := 0, value := 2, gradient := 0, operator := none },
         { id := 1, value := 3, gradient := 0, operator := none },
         { id := 2, value := 5, gradient := 1, operator := some .Plus },
         { id := 3, value := 7, gradient := 0, operator := none }] := rfl
    rw [h1, backLoop_cons_skip (fun _ _ => 0) [(2, (some 0, some 1))] [] []
        [{ id := 0, value := 2, gradient := 0, operator := none },
         { id := 1, value := 3, gradient := 0, operator := none },
         { id := 2, value := 5, gradient := 1, operator := some .Plus },
         { id := 3, value := 7, gradient := 0, operator := none }] 3
        { id := 3, value := 7, gradient := 0, operator := none } rfl (by simp) (Or.inl rfl),
      backLoop_nil]
  exact ((claim8_backwards_frame (fun _ _ => 0) [(2, (some 0, some 1))] _ _ [3] hok).2.1 2).2.1

/-- Claim C10: `backwards` always starts its traversal at the last arena
node (by definition it seeds the queue with `nodes.getLast?`'s id, whatever
gradients were seeded), so — for an arena whose ids equal their indices, as
the id counter guarantees — every processed (visited) node is reachable from
the last node through edge records, and every node unreachable from the last
node is left completely untouched: in particular a gradient seeded on an
unreachable node is never propagated to that node's operands. -/
theorem claim10_traversal_from_last (powf : ℚ → ℚ → ℚ) (map : EdgeMap)
    (nodes ns' : List Node) (vis' : List Nat) (last : Node)
    (hWF : ∀ (idx : Nat) (n : Node), getNode nodes idx = some n → n.id = idx)
    (hlast : nodes.getLast? = some last)
    (hok : backwards powf map nodes = .ok (ns', vis')) :
    (∀ v ∈ vis', reaches map last.id v) ∧
    (∀ k : Nat, ¬ reaches map last.id k → getNode ns' k = getNode nodes k) := by
  simp only [backwards, hlast] at hok
  obtain ⟨hvis, hfr⟩ := backLoop_reach_aux powf map last.id [] [last.id] nodes ns' vis'
    (fun d hd => by
      rw [List.mem_singleton.mp hd]
      exact Relation.ReflTransGen.refl) hWF hok
  exact ⟨fun v hm => (hvis v hm).resolve_left (by simp), hfr⟩

theorem claim10_traversal_from_last_witness :
    getNode [{ id := 0, value := 2, gradient := 0, operator := none },
             { id := 1, value := 3, gradient := 0, operator := none },
             { id := 2, value := 5, gradient := 1, operator := some .Plus },
             { id := 3, value := 7, gradient := 0, operator := none }] 2 =
      getNode [{ id := 0, value := 2, gradient := 0, operator := none },
             { id := 1, value := 3, gradient := 0, operator := none },
             { id := 2, value := 5, gradient := 1, operator := some .Plus },
             { id := 3, value := 7, gradient := 0, operator := none }] 2 := by
  have hok : backwards (fun _ _ => 0) [(2, (some 0, some 1))]
      [{ id := 0, value := 2, gradient := 0, operator := none },
       { id := 1, value := 3, gradient := 0, operator := none },
       { id := 2, value := 5, gradient := 1, operator := some .Plus },
       { id := 3, value := 7, gradient := 0, operator := none }] =
      .ok ([{ id := 0, value := 2, gradient := 0, operator := none },
       { id := 1, value := 3, gradient := 0, operator := none },
       { id := 2, value := 5, gradient := 1, operator := some .Plus },
       { id := 3, value := 7, gradient := 0, operator := none }], [3]) := by
    have h1 : backwards (fun _ _ => 0) [(2, (some 0, some 1))]
        [{ id := 0, value := 2, gradient := 0, operator := none },
         { id := 1, value := 3, gradient := 0, operator := none },
         { id := 2, value := 5, gradient := 1, operator := some .Plus },
         { id := 3, value := 7, gradient := 0, operator := none }] =
        backLoop (fun _ _ => 0) [(2, (some 0, some 1))] [] [3]
        [{ id := 0, value := 2, gradient := 0, operator := none },
         { id := 1, value := 3, gradient := 0, operator := none },
         { id := 2, value := 5, gradient := 1, operator := some .Plus },
         { id := 3, value := 7, gradient := 0, operator := none }] := rfl
    rw [h1, backLoop_cons_skip (fun _ _ => 0) [(2, (some 0, some 1))] [] []
        [{ id := 0, value := 2, gradient := 0, operator := none },
         { id := 1, value := 3, gradient := 0, operator := none },
         { id := 2, value := 5, gradient := 1, operator := some .Plus },
         { id := 3, value := 7, gradient := 0, operator := none }] 3
        { id := 3, value := 7, gradient := 0, operator := none } rfl (by simp) (Or.inl rfl),
      backLoop_nil]
  have hWF : ∀ (idx : Nat) (n : Node),
      getNode [{ id := 0, value := 2, gradient := 0, operator := none },
               { id := 1, value := 3, gradient := 0, operator := none },
               { id := 2, value := 5, gradient := 1, operator := some .Plus },
               { id := 3, value := 7, gradient := 0, operator := none }] idx = some n →
      n.id = idx := by
    intro idx n h
    rcases idx with _ | _ | _ | _ | idx <;> simp [getNode] at h <;> simp [← h]
  have hnr : ¬ reaches [(2, (some 0, some 1))] 3 2 := by
    intro hr
    rcases Relation.ReflTransGen.cases_head hr with he | ⟨c, hc, _⟩
    · omega
    · obtain ⟨r, hfr, _⟩ := hc
      simp [findRec] at hfr
  exact (claim10_traversal_from_last (fun _ _ => 0) [(2, (some 0, some 1))] _ _ [3]
    { id := 3, value := 7, gradient := 0, operator := none } hWF rfl hok).2 2 hnr

end Rustygrad
